import Mathlib

/-!
Shallow embedding of the pingora_proxy load-balancing core.

The definitions below are translated from the repository's Rust sources:
`src/backend.rs`, `src/load_balancer.rs`, `src/config.rs`,
`src/health_check.rs`, `src/ssl_watcher.rs` and the certificate watcher
loop of `src/main copy.rs`.  Shared-memory state (the `AtomicUsize`
counter and the `RwLock<HashMap<..>>` session map of `LoadBalancer`) is
passed explicitly: every stateful operation takes the state and returns
the selected value together with the updated state.  `rand::thread_rng`
is modelled by a pre-drawn natural number carried in the state and used
modulo the candidate count, exactly the range `gen_range(0..len)`
produces.
-/

/-- `Backend` from `src/backend.rs`.  `port : u16` and `weight : usize`
become `Nat` (no arithmetic in the program brings them near overflow);
`last_checked : Option<Instant>` becomes an abstract `Option Nat`
timestamp. -/
structure Backend where
  host : String
  port : Nat
  weight : Nat
  healthy : Bool
  last_checked : Option Nat
deriving DecidableEq, Repr

/-- `LoadBalanceStrategy` from `src/load_balancer.rs`. -/
inductive LoadBalanceStrategy where
  | roundRobin
  | weighted
  | leastConnections
  | stickySession
  | random
deriving DecidableEq, Repr

/-- `LoadBalancer` from `src/load_balancer.rs`: `counter` is the
`AtomicUsize`, `session_map` models the `RwLock<HashMap<String, usize>>`
as an association list where the most recent insertion shadows older
entries (matching `HashMap::insert` followed by `HashMap::get`), and
`rand` is the next value the thread-local RNG would produce. -/
structure LoadBalancer where
  strategy : LoadBalanceStrategy
  counter : Nat
  session_map : List (String × Nat)
  rand : Nat
deriving DecidableEq, Repr

/-- `HashMap::get` on the association-list model of `session_map`. -/
def map_get : List (String × Nat) → String → Option Nat
  | [], _ => none
  | (k, v) :: rest, sid => if k = sid then some v else map_get rest sid

/-- `LoadBalancer::round_robin` (`src/load_balancer.rs:74-80`):
`counter.fetch_add(1)` returns the old value, so the selected index is
the pre-increment counter modulo the candidate count. -/
def round_robin (lb : LoadBalancer) (backends : List Backend) :
    Option Backend × LoadBalancer :=
  if backends.isEmpty then (none, lb)
  else
    let index := lb.counter % backends.length
    (backends[index]?, { lb with counter := lb.counter + 1 })

/-- The `for b in backends { acc += b.weight; if choice < acc { return ... } }`
loop of `LoadBalancer::weighted` (`src/load_balancer.rs:95-100`). -/
def weightedLoop : List Backend → Nat → Nat → Option Backend
  | [], _, _ => none
  | b :: rest, choice, acc =>
    let acc := acc + b.weight
    if choice < acc then some b else weightedLoop rest choice acc

/-- `LoadBalancer::weighted` (`src/load_balancer.rs:82-103`). -/
def weighted (lb : LoadBalancer) (backends : List Backend) :
    Option Backend × LoadBalancer :=
  if backends.isEmpty then (none, lb)
  else
    let total_weight := (backends.map Backend.weight).sum
    if total_weight = 0 then round_robin lb backends
    else
      let choice := lb.counter % 100
      let lb' := { lb with counter := lb.counter + 1 }
      match weightedLoop backends choice 0 with
      | some b => (some b, lb')
      | none => (backends.head?, lb')

/-- `LoadBalancer::least_connections` (`src/load_balancer.rs:105-107`):
the body is a single call to `round_robin`. -/
def least_connections (lb : LoadBalancer) (backends : List Backend) :
    Option Backend × LoadBalancer :=
  round_robin lb backends

/-- `LoadBalancer::sticky_session` (`src/load_balancer.rs:109-130`).
A stored index that resolves inside the candidate slice returns early
without touching counter or map; otherwise a fresh index is taken from
the counter and, when a session id is present, recorded in the map. -/
def sticky_session (lb : LoadBalancer) (backends : List Backend)
    (session_id : Option String) : Option Backend × LoadBalancer :=
  if backends.isEmpty then (none, lb)
  else
    let hit : Option Backend :=
      match session_id with
      | some sid =>
        match map_get lb.session_map sid with
        | some backend_index => backends[backend_index]?
        | none => none
      | none => none
    match hit with
    | some b => (some b, lb)
    | none =>
      let backend_index := lb.counter % backends.length
      let lb' := { lb with counter := lb.counter + 1 }
      let lb'' :=
        match session_id with
        | some sid => { lb' with session_map := (sid, backend_index) :: lb'.session_map }
        | none => lb'
      (backends[backend_index]?, lb'')

/-- `LoadBalancer::random` (`src/load_balancer.rs:132-140`):
`rng.gen_range(0..len)` is modelled by the pre-drawn `lb.rand` reduced
modulo the candidate count (the RNG is external state, so `lb` is
returned unchanged). -/
def random (lb : LoadBalancer) (backends : List Backend) :
    Option Backend × LoadBalancer :=
  if backends.isEmpty then (none, lb)
  else
    let index := lb.rand % backends.length
    (backends[index]?, lb)

/-- `LoadBalancer::select_from_all` (`src/load_balancer.rs:63-72`). -/
def select_from_all (lb : LoadBalancer) (backends : List Backend)
    (session_id : Option String) : Option Backend × LoadBalancer :=
  match lb.strategy with
  | .roundRobin => round_robin lb backends
  | .weighted => weighted lb backends
  | .leastConnections => least_connections lb backends
  | .stickySession => sticky_session lb backends session_id
  | .random => random lb backends

/-- `LoadBalancer::select_backend` (`src/load_balancer.rs:46-61`):
filter to the healthy subset; when it is empty fall back to the full
slice, otherwise dispatch the strategy over the healthy subset. -/
def select_backend (lb : LoadBalancer) (backends : List Backend)
    (session_id : Option String) : Option Backend × LoadBalancer :=
  let healthy_backends := backends.filter (fun b => b.healthy)
  if healthy_backends.isEmpty then select_from_all lb backends session_id
  else
    match lb.strategy with
    | .roundRobin => round_robin lb healthy_backends
    | .weighted => weighted lb healthy_backends
    | .leastConnections => least_connections lb healthy_backends
    | .stickySession => sticky_session lb healthy_backends session_id
    | .random => random lb healthy_backends

/-- `n` consecutive calls to `select_backend` against a fixed registry,
collecting the selections and threading the state. -/
def select_many (lb : LoadBalancer) (backends : List Backend)
    (session_id : Option String) : Nat → List (Option Backend) × LoadBalancer
  | 0 => ([], lb)
  | n + 1 =>
    let r := select_backend lb backends session_id
    let rest := select_many r.2 backends session_id n
    (r.1 :: rest.1, rest.2)

/-- Rust's `str::split(sep)` on a character list: splits at every
occurrence of `sep`, keeping empty pieces, and yields one (empty) piece
for the empty input. -/
def splitOnChar (sep : Char) : List Char → List (List Char)
  | [] => [[]]
  | c :: rest =>
    let r := splitOnChar sep rest
    if c = sep then [] :: r
    else
      match r with
      | [] => [[c]]
      | piece :: more => (c :: piece) :: more

/-- Accumulator loop of decimal-digit parsing. -/
def digitsVal : List Char → Nat → Option Nat
  | [], acc => some acc
  | c :: rest, acc =>
    if c.isDigit then digitsVal rest (acc * 10 + (c.toNat - 48)) else none

/-- Decimal value of a non-empty all-digit character list. -/
def digitsToNat? (cs : List Char) : Option Nat :=
  if cs.isEmpty then none else digitsVal cs 0

/-- Rust's `str::parse::<u16>()`: optional leading `+`, then at least one
digit, value at most 65535. -/
def parse_u16 (cs : List Char) : Option Nat :=
  let cs := match cs with
    | '+' :: rest => rest
    | _ => cs
  match digitsToNat? cs with
  | some n => if n < 65536 then some n else none
  | none => none

/-- Rust's `str::parse::<usize>()` (overflow, which would need a weight
of at least 2^64 written out in the `BACKENDS` string, is not
modelled). -/
def parse_usize (cs : List Char) : Option Nat :=
  let cs := match cs with
    | '+' :: rest => rest
    | _ => cs
  digitsToNat? cs

/-- One entry of the comma-separated `BACKENDS` value, as parsed by the
`for entry in val.split(',')` body of `load_backends`
(`src/config.rs:53-73`): `host:port[:weight]`, where the port must parse
as a `u16`, the weight field (used exactly when the entry has three
parts) falls back to 1 when it does not parse, and entries with fewer
than two parts or a bad port are skipped. -/
def parseBackendEntry (entry : List Char) : Option Backend :=
  match splitOnChar ':' entry with
  | host :: portStr :: rest =>
    match parse_u16 portStr with
    | some port =>
      let weight :=
        match rest with
        | [w] => (parse_usize w).getD 1
        | _ => 1
      some { host := String.mk host, port := port, weight := weight,
             healthy := true, last_checked := none }
    | none => none
  | _ => none

/-- The per-entry rescaling `((b.weight as f64) * (100.0 / total)).round()`
of `load_backends` (`src/config.rs:83-85`), computed exactly over the
rationals: round-half-away-from-zero of `w * 100 / total` on non-negative
operands is `(2 * (w * 100) + total) / (2 * total)` in integer division.
(For `total = 0` both sides degenerate to 0: Rust's `NaN as usize`.) -/
def rescaleWeight (w total : Nat) : Nat :=
  (2 * (w * 100) + total) / (2 * total)

/-- The weight-normalization tail of `load_backends`
(`src/config.rs:80-87`): when the declared weights do not already sum to
100, each weight is independently rescaled and rounded. -/
def normalize_weights (backends : List Backend) : List Backend :=
  let total := (backends.map Backend.weight).sum
  if total = 100 then backends
  else backends.map (fun b => { b with weight := rescaleWeight b.weight total })

/-- `load_backends` (`src/config.rs:49-90`), taking the raw `BACKENDS`
string; `none` models the `panic!` on an empty parsed list. -/
def load_backends (val : String) : Option (List Backend) :=
  let backends := (splitOnChar ',' val.data).filterMap parseBackendEntry
  if backends.isEmpty then none
  else some (normalize_weights backends)

/-- `SslWatcher` from `src/ssl_watcher.rs`, with `day_left : i32` as
`Int`. -/
structure SslWatcher where
  is_good : Bool
  day_left : Int
  error : String
deriving DecidableEq, Repr

/-- `chrono::Duration::num_days` on a duration given in seconds: whole
days, truncated toward zero. -/
def num_days (duration : Int) : Int :=
  if 0 ≤ duration then duration / 86400 else -((-duration) / 86400)

/-- What `check_cert` (`src/ssl_watcher.rs:12-93`) produced before the
pure tail: reading and parsing the certificate file are I/O, so each
early-return branch is a constructor and a successful parse carries the
certificate's not-after timestamp (seconds). -/
inductive CertSource where
  | unreadable
  | unparsableCert
  | unparsableDate
  | parsed (not_after : Int)
deriving DecidableEq, Repr

/-- `check_cert` (`src/ssl_watcher.rs:12-93`): every early-return branch
reports `is_good = false, day_left = -1`; after a successful parse the
result is `is_good = true` with `day_left` the truncated whole-day count
of `not_after - now` — unconditionally, whatever its sign. -/
def check_cert (src : CertSource) (now : Int) : SslWatcher :=
  match src with
  | .unreadable => { is_good := false, day_left := -1, error := "Failed to read cert" }
  | .unparsableCert => { is_good := false, day_left := -1, error := "Failed to parse cert" }
  | .unparsableDate =>
    { is_good := false, day_left := -1, error := "Failed to parse not_after time" }
  | .parsed not_after =>
    let duration := not_after - now
    let days_left := num_days duration
    { is_good := true, day_left := days_left, error := "" }

/-- What one iteration of the certificate watcher loop does next. -/
inductive WatcherAction where
  | exitProcess
  | sleep24h
  | regenerateAndSwap
deriving DecidableEq, Repr

/-- One tick of the certificate-expiry watcher loop in `main`
(`src/main copy.rs:50-66`): `!day_cert.is_good` exits the process; the
`day_cert.day_left <= 1` branch has an EMPTY body in the source, so the
tick falls through to the 24-hour sleep either way. -/
def watcher_tick (day_cert : SslWatcher) : WatcherAction :=
  if day_cert.is_good = false then .exitProcess
  else if day_cert.day_left ≤ 1 then
    .sleep24h
  else .sleep24h

/-- The outcome of one health-probe HTTP request
(`client.get(&url).send().await` in `src/health_check.rs:41`): a
completed response with its status code, or a transport error/timeout. -/
inductive ProbeResult where
  | ok (status : Nat)
  | err
deriving DecidableEq, Repr

/-- The per-backend body of `HealthChecker::health_check_loop`
(`src/health_check.rs:41-62`): on a completed response the healthy flag
is rewritten only when it flips (to `success_codes.contains status`); on
an error it is cleared only when it was set; `last_checked` is stamped in
both arms. -/
def probe_update (b : Backend) (success_codes : List Nat) (r : ProbeResult)
    (now : Nat) : Backend :=
  match r with
  | .ok status =>
    let is_healthy := success_codes.contains status
    let b' := if b.healthy ≠ is_healthy then { b with healthy := is_healthy } else b
    { b' with last_checked := some now }
  | .err =>
    let b' := if b.healthy then { b with healthy := false } else b
    { b' with last_checked := some now }

/-- Cumulative (running-sum) weight of the candidate list through index
`i`: the sum of the weights of the first `i + 1` candidates. -/
def prefixWeight (h : List Backend) (i : Nat) : Nat :=
  ((h.take (i + 1)).map Backend.weight).sum

/-- Concrete backends used by the closed instances below. -/
def bkA : Backend := { host := "a", port := 1, weight := 0, healthy := true, last_checked := none }

def bkB : Backend := { host := "b", port := 2, weight := 0, healthy := true, last_checked := none }

def bkC : Backend := { host := "c", port := 3, weight := 0, healthy := true, last_checked := none }

def bk70 : Backend := { host := "u", port := 4, weight := 70, healthy := true, last_checked := none }

def bk30 : Backend := { host := "v", port := 5, weight := 30, healthy := true, last_checked := none }

def bk20 : Backend := { host := "w", port := 6, weight := 20, healthy := true, last_checked := none }

/-- C3: the certificate-expiry watcher loop never performs a
regeneration/hot-swap on any tick — the `day_left <= 1` branch in the
source has an empty body, so every tick either exits the process (bad
certificate) or just sleeps, contradicting the claim that such a tick
performs `generate()` followed by a hot-swap. -/
theorem watcher_tick_no_regeneration (day_cert : SslWatcher) :
    watcher_tick day_cert ≠ WatcherAction.regenerateAndSwap := by
  unfold watcher_tick
  split
  · simp
  · split <;> simp

/-- C4 counterexample: a certificate that reads and parses successfully
but expired ten days ago yields `day_left = -10` with `is_good = true`,
not the invalid state (`is_good = false`) the claim asserts. -/
theorem check_cert_expired_counterexample :
    (check_cert (CertSource.parsed 0) 864000).day_left = -10 ∧
    (check_cert (CertSource.parsed 0) 864000).is_good = true := by decide

/-- C4 (amended): for a certificate that reads and parses successfully
and whose not-after lies at least one full day in the past, `check_cert`
returns a negative `day_left` — but `is_good = true`, because `is_good`
records only that the certificate was read and parsed, not validity. -/
theorem check_cert_expired (not_after now : Int) (h : not_after + 86400 ≤ now) :
    (check_cert (CertSource.parsed not_after) now).day_left < 0 ∧
    (check_cert (CertSource.parsed not_after) now).is_good = true := by
  refine ⟨?_, rfl⟩
  show num_days (not_after - now) < 0
  unfold num_days
  rw [if_neg (by omega)]
  have h1 : (1 : Int) ≤ (-(not_after - now)) / 86400 := by
    rw [Int.le_ediv_iff_mul_le (by norm_num)]
    omega
  omega

/-- C4 witness: `check_cert` at a certificate expired eleven days before
`now`. -/
theorem check_cert_expired_witness :
    (check_cert (CertSource.parsed 0) 950400).day_left < 0 ∧
    (check_cert (CertSource.parsed 0) 950400).is_good = true :=
  check_cert_expired 0 950400 (by norm_num)

/-- C8: after any probe attempt the backend's healthy flag equals
membership of the response status in `success_codes` when the request
completed, and `false` when it errored or timed out; `last_checked` is
stamped on every attempt regardless of outcome. -/
theorem probe_update_spec (b : Backend) (success_codes : List Nat)
    (r : ProbeResult) (now : Nat) :
    (probe_update b success_codes r now).healthy =
      (match r with
       | .ok status => success_codes.contains status
       | .err => false) ∧
    (probe_update b success_codes r now).last_checked = some now := by
  cases r with
  | ok status =>
    refine ⟨?_, rfl⟩
    simp only [probe_update]
    by_cases hb : b.healthy = success_codes.contains status
    · rw [if_neg (by simpa using hb)]
      exact hb
    · rw [if_pos (by simpa using hb)]
  | err =>
    refine ⟨?_, rfl⟩
    simp only [probe_update]
    by_cases hb : b.healthy
    · rw [if_pos hb]
    · rw [if_neg hb]
      simpa using hb

/-- C9: for every candidate registry, shared state (counter, session
map, RNG draw) and optional session token, selection under
`LeastConnections` returns exactly the backend that selection under
`RoundRobin` returns, and advances the counter identically — the two
strategies are extensionally equal. -/
theorem least_connections_is_round_robin (c : Nat) (m : List (String × Nat))
    (rd : Nat) (bs : List Backend) (sid : Option String) :
    (select_backend ⟨.leastConnections, c, m, rd⟩ bs sid).1 =
      (select_backend ⟨.roundRobin, c, m, rd⟩ bs sid).1 ∧
    (select_backend ⟨.leastConnections, c, m, rd⟩ bs sid).2.counter =
      (select_backend ⟨.roundRobin, c, m, rd⟩ bs sid).2.counter := by
  simp only [select_backend, select_from_all, least_connections, round_robin]
  split <;> (try split) <;> simp

/-- C2: with `BACKENDS="a:80,b:80,c:80"` (three backends of default
weight 1) the loaded weights are `[33, 33, 33]`, summing to 99 — not to
exactly 100 as the normalization comment in the source promises: the
code rounds each rescaled weight independently instead of using
largest-remainder rounding. -/
theorem load_backends_not_100 :
    (load_backends "a:80,b:80,c:80").map (fun bs => (bs.map Backend.weight).sum) =
      some 99 := by decide

/-- C1 counterexample: with three healthy backends and counter 1, token
"t" is first mapped to `bkB` (index 1 of the healthy slice); after
`bkA`'s healthy flag — a flag of a DIFFERENT backend — flips to false,
the same token resolves index 1 against the shrunken healthy slice and
returns `bkC ≠ bkB`. -/
theorem sticky_session_health_flip_redirects :
    (select_backend ⟨.stickySession, 1, [], 0⟩ [bkA, bkB, bkC] (some "t")).1 = some bkB ∧
    (select_backend (select_backend ⟨.stickySession, 1, [], 0⟩ [bkA, bkB, bkC] (some "t")).2
        [{ bkA with healthy := false }, bkB, bkC] (some "t")).1 = some bkC ∧
    bkC ≠ bkB := by decide

/-- C1 (amended): the sticky mapping is stored as an index into the
healthy-filtered candidate slice and is resolved against that filtered
slice on every lookup, so a token keeps returning the same backend only
while the backends' health flags are unchanged: under the sticky-session
strategy, repeating a lookup against the same registry returns the same
backend and leaves the state fixed. -/
theorem sticky_session_repeat_stable (lb : LoadBalancer) (bs : List Backend) (sid : String)
    (hs : lb.strategy = LoadBalanceStrategy.stickySession)
    (hne : bs.filter (fun b => b.healthy) ≠ []) :
    select_backend (select_backend lb bs (some sid)).2 bs (some sid) =
      ((select_backend lb bs (some sid)).1, (select_backend lb bs (some sid)).2) := by
  obtain ⟨strat, c, m, rd⟩ := lb
  simp only at hs
  subst hs
  have hE : (bs.filter (fun b => b.healthy)).isEmpty = false := by
    cases hf : bs.filter (fun b => b.healthy) with
    | nil => exact absurd hf hne
    | cons x xs => rfl
  set h := bs.filter (fun b => b.healthy) with hh
  have hlen : 0 < h.length := by
    cases hf : h with
    | nil => exact absurd hf hne
    | cons x xs => simp [hf]
  simp only [select_backend, hE, Bool.false_eq_true, if_false, sticky_session]
  rcases hmg : map_get m sid with _ | idx
  · -- no stored mapping: the first call assigns and records an index
    have hi : c % h.length < h.length := Nat.mod_lt _ hlen
    simp only [sticky_session, hE, Bool.false_eq_true, if_false, hmg,
      List.getElem?_eq_getElem hi, map_get, if_pos rfl]
    simp [List.getElem?_eq_getElem hi]
  · rcases hidx : h[idx]? with _ | b
    · -- stale stored index: same as a fresh assignment
      have hi : c % h.length < h.length := Nat.mod_lt _ hlen
      simp only [sticky_session, hE, Bool.false_eq_true, if_false, hmg, hidx,
        List.getElem?_eq_getElem hi, map_get, if_pos rfl]
      simp [List.getElem?_eq_getElem hi]
    · -- valid stored index: the state is returned unchanged
      simp only [sticky_session, hE, Bool.false_eq_true, if_false, hmg, hidx]

/-- C1 witness: repeating the lookup for token "t" against the unchanged
three-backend registry reproduces the first selection and state. -/
theorem sticky_session_repeat_stable_witness :
    select_backend
        (select_backend ⟨.stickySession, 1, [], 0⟩ [bkA, bkB, bkC] (some "t")).2
        [bkA, bkB, bkC] (some "t") =
      ((select_backend ⟨.stickySession, 1, [], 0⟩ [bkA, bkB, bkC] (some "t")).1,
        (select_backend ⟨.stickySession, 1, [], 0⟩ [bkA, bkB, bkC] (some "t")).2) :=
  sticky_session_repeat_stable ⟨.stickySession, 1, [], 0⟩ [bkA, bkB, bkC] "t" rfl
    (by decide)

-- Helper: `round_robin` on a non-empty candidate slice selects a backend.
theorem round_robin_isSome (lb : LoadBalancer) (bs : List Backend) (hne : bs ≠ []) :
    ((round_robin lb bs).1).isSome = true := by
  have hE : bs.isEmpty = false := by
    cases bs with
    | nil => exact absurd rfl hne
    | cons x xs => rfl
  have hlen : 0 < bs.length := List.length_pos.mpr hne
  simp only [round_robin, hE, Bool.false_eq_true, if_false]
  simp [List.getElem?_eq_getElem (Nat.mod_lt _ hlen)]

-- Helper: `weighted` on a non-empty candidate slice selects a backend.
theorem weighted_isSome (lb : LoadBalancer) (bs : List Backend) (hne : bs ≠ []) :
    ((weighted lb bs).1).isSome = true := by
  have hE : bs.isEmpty = false := by
    cases bs with
    | nil => exact absurd rfl hne
    | cons x xs => rfl
  simp only [weighted, hE, Bool.false_eq_true, if_false]
  split
  · exact round_robin_isSome lb bs hne
  · split
    · simp
    · cases bs with
      | nil => exact absurd rfl hne
      | cons x xs => simp

-- Helper: `sticky_session` on a non-empty candidate slice selects a backend.
theorem sticky_session_isSome (lb : LoadBalancer) (bs : List Backend)
    (sid : Option String) (hne : bs ≠ []) :
    ((sticky_session lb bs sid).1).isSome = true := by
  have hE : bs.isEmpty = false := by
    cases bs with
    | nil => exact absurd rfl hne
    | cons x xs => rfl
  have hlen : 0 < bs.length := List.length_pos.mpr hne
  simp only [sticky_session, hE, Bool.false_eq_true, if_false]
  split
  · simp
  · simp [List.getElem?_eq_getElem (Nat.mod_lt _ hlen)]

-- Helper: `random` on a non-empty candidate slice selects a backend.
theorem random_isSome (lb : LoadBalancer) (bs : List Backend) (hne : bs ≠ []) :
    ((random lb bs).1).isSome = true := by
  have hE : bs.isEmpty = false := by
    cases bs with
    | nil => exact absurd rfl hne
    | cons x xs => rfl
  have hlen : 0 < bs.length := List.length_pos.mpr hne
  simp only [random, hE, Bool.false_eq_true, if_false]
  simp [List.getElem?_eq_getElem (Nat.mod_lt _ hlen)]

-- Helper: the fallback path selects a backend for every strategy.
theorem select_from_all_isSome (lb : LoadBalancer) (bs : List Backend)
    (sid : Option String) (hne : bs ≠ []) :
    ((select_from_all lb bs sid).1).isSome = true := by
  unfold select_from_all
  cases lb.strategy
  · exact round_robin_isSome lb bs hne
  · exact weighted_isSome lb bs hne
  · exact round_robin_isSome lb bs hne
  · exact sticky_session_isSome lb bs sid hne
  · exact random_isSome lb bs hne

/-- C5: for every state, registry and optional session token,
`select_backend` returns a backend exactly when the registry is
non-empty — in particular it still returns one when every backend is
unhealthy (the fallback re-runs the strategy over the full slice), and
returns none only for the empty registry. -/
theorem select_backend_some_iff (lb : LoadBalancer) (bs : List Backend)
    (sid : Option String) :
    ((select_backend lb bs sid).1).isSome = true ↔ bs ≠ [] := by
  constructor
  · intro hsome hnil
    subst hnil
    simp [select_backend, select_from_all, round_robin, weighted, least_connections,
      sticky_session, random] at hsome
    rcases hstrat : lb.strategy <;> simp [hstrat] at hsome
  · intro hne
    unfold select_backend
    by_cases hf : (bs.filter (fun b => b.healthy)).isEmpty = true
    · rw [if_pos hf]
      exact select_from_all_isSome lb bs sid hne
    · rw [if_neg hf]
      have hfe : bs.filter (fun b => b.healthy) ≠ [] := by
        intro h0
        exact hf (by simp [h0])
      cases lb.strategy
      · exact round_robin_isSome lb _ hfe
      · exact weighted_isSome lb _ hfe
      · exact round_robin_isSome lb _ hfe
      · exact sticky_session_isSome lb _ sid hfe
      · exact random_isSome lb _ hfe

-- Helper: the running sum through index 0 is the head's weight.
theorem prefixWeight_zero (b : Backend) (t : List Backend) :
    prefixWeight (b :: t) 0 = b.weight := by
  simp [prefixWeight]

-- Helper: the running sum steps by the head's weight.
theorem prefixWeight_succ (b : Backend) (t : List Backend) (j : Nat) :
    prefixWeight (b :: t) (j + 1) = b.weight + prefixWeight t j := by
  simp [prefixWeight, List.take_succ_cons]

-- Helper: the bucket loop returns the first candidate whose running sum
-- (offset by the starting accumulator) strictly exceeds the draw.
theorem weightedLoop_spec (h : List Backend) (d : Nat) :
    ∀ (i acc : Nat), i < h.length →
      (∀ j, j < i → acc + prefixWeight h j ≤ d) →
      d < acc + prefixWeight h i →
      weightedLoop h d acc = h[i]? := by
  induction h with
  | nil =>
    intro i acc hi
    exact absurd hi (by simp)
  | cons b t ih =>
    intro i acc hi hlow hhigh
    cases i with
    | zero =>
      have hlt : d < acc + b.weight := by
        simpa [prefixWeight_zero] using hhigh
      simp [weightedLoop, hlt]
    | succ i' =>
      have h0 : acc + b.weight ≤ d := by
        simpa [prefixWeight_zero] using hlow 0 (Nat.succ_pos _)
      have hnotlt : ¬ (d < acc + b.weight) := by omega
      simp only [weightedLoop, if_neg hnotlt, List.getElem?_cons_succ]
      apply ih i' (acc + b.weight) (by simpa using hi)
      · intro j hj
        have := hlow (j + 1) (Nat.succ_lt_succ hj)
        rw [prefixWeight_succ] at this
        omega
      · have := hhigh
        rw [prefixWeight_succ] at this
        omega

/-- C7: for a non-empty candidate slice, `weighted` draws the counter
modulo 100 and returns the first candidate whose cumulative running-sum
weight strictly exceeds the draw; when the candidates' total weight is 0
it is exactly `round_robin` over the same candidates. -/
theorem weighted_spec (lb : LoadBalancer) (h : List Backend) (hne : h ≠ []) :
    ((h.map Backend.weight).sum = 0 → weighted lb h = round_robin lb h) ∧
    (∀ i, i < h.length →
      (∀ j, j < i → prefixWeight h j ≤ lb.counter % 100) →
      lb.counter % 100 < prefixWeight h i →
      (weighted lb h).1 = h[i]?) := by
  have hE : h.isEmpty = false := by
    cases h with
    | nil => exact absurd rfl hne
    | cons x xs => rfl
  constructor
  · intro h0
    simp [weighted, hE, h0]
  · intro i hi hlow hhigh
    have hple : prefixWeight h i ≤ (h.map Backend.weight).sum := by
      have hsplit := List.sum_take_add_sum_drop (h.map Backend.weight) (i + 1)
      have hmt : prefixWeight h i = ((h.map Backend.weight).take (i + 1)).sum := by
        rw [prefixWeight, List.map_take]
      omega
    have htot : ¬ ((h.map Backend.weight).sum = 0) := by omega
    have hloop := weightedLoop_spec h (lb.counter % 100) i 0 hi
      (fun j hj => by simpa using hlow j hj) (by simpa using hhigh)
    simp only [weighted, hE, Bool.false_eq_true, if_false, if_neg htot, hloop,
      List.getElem?_eq_getElem hi]

/-- C7 witness: with weights 70/30 and counter 85 the draw is 85, and
selection lands in the second bucket (running sum 100 > 85 > 70). -/
theorem weighted_spec_witness :
    (weighted ⟨.weighted, 85, [], 0⟩ [bk70, bk30]).1 = [bk70, bk30][1]? :=
  (weighted_spec ⟨.weighted, 85, [], 0⟩ [bk70, bk30] (by decide)).2 1 (by decide)
    (by decide) (by decide)

-- Helper: a draw at least the remaining total weight falls through the
-- bucket loop.
theorem weightedLoop_none_of_le (h : List Backend) (d : Nat) :
    ∀ acc, acc + (h.map Backend.weight).sum ≤ d → weightedLoop h d acc = none := by
  induction h with
  | nil => intro acc _; rfl
  | cons b t ih =>
    intro acc hle
    simp only [List.map_cons, List.sum_cons] at hle
    have hnotlt : ¬ (d < acc + b.weight) := by omega
    simp only [weightedLoop, if_neg hnotlt]
    exact ih (acc + b.weight) (by omega)

/-- C10: when the candidates' total weight T satisfies 0 < T and the
draw (counter mod 100) is at least T, the bucket loop finds no bucket
and `weighted` returns the first candidate — the head absorbs all
residual draw mass whenever T < 100. -/
theorem weighted_overflow_head (lb : LoadBalancer) (h : List Backend)
    (hne : h ≠ []) (hpos : 0 < (h.map Backend.weight).sum)
    (hd : (h.map Backend.weight).sum ≤ lb.counter % 100) :
    (weighted lb h).1 = h.head? := by
  have hE : h.isEmpty = false := by
    cases h with
    | nil => exact absurd rfl hne
    | cons x xs => rfl
  have htot : ¬ ((h.map Backend.weight).sum = 0) := by omega
  have hloop := weightedLoop_none_of_le h (lb.counter % 100) 0 (by omega)
  simp [weighted, hE, if_neg htot, hloop]

/-- C10 witness: total weight 50, counter 60: the draw 60 exceeds every
running sum and the first candidate is returned. -/
theorem weighted_overflow_head_witness :
    (weighted ⟨.weighted, 60, [], 0⟩ [bk20, bk30]).1 = [bk20, bk30].head? :=
  weighted_overflow_head ⟨.weighted, 60, [], 0⟩ [bk20, bk30] (by decide) (by decide)
    (by decide)

-- Helper: one `select_backend` call under RoundRobin with a non-empty
-- healthy subset selects by counter mod the healthy count and increments
-- the counter.
theorem select_backend_rr (c : Nat) (m : List (String × Nat)) (rd : Nat)
    (bs : List Backend) (sid : Option String)
    (hne : bs.filter (fun b => b.healthy) ≠ []) :
    select_backend ⟨.roundRobin, c, m, rd⟩ bs sid =
      ((bs.filter (fun b => b.healthy))[c % (bs.filter (fun b => b.healthy)).length]?,
        ⟨.roundRobin, c + 1, m, rd⟩) := by
  have hE : (bs.filter (fun b => b.healthy)).isEmpty = false := by
    cases hf : bs.filter (fun b => b.healthy) with
    | nil => exact absurd hf hne
    | cons x xs => rfl
  simp [select_backend, round_robin, hE]

-- Helper: n consecutive RoundRobin selections are the healthy list
-- sampled at consecutive counter residues.
theorem select_many_rr (bs : List Backend) (sid : Option String)
    (m : List (String × Nat)) (rd : Nat)
    (hne : bs.filter (fun b => b.healthy) ≠ []) :
    ∀ (n c : Nat),
      (select_many ⟨.roundRobin, c, m, rd⟩ bs sid n).1 =
        (List.range n).map
          (fun i =>
            (bs.filter (fun b => b.healthy))[(c + i) %
              (bs.filter (fun b => b.healthy)).length]?) := by
  intro n
  induction n with
  | zero => intro c; rfl
  | succ k ih =>
    intro c
    simp only [select_many, select_backend_rr c m rd bs sid hne, ih (c + 1)]
    rw [List.range_succ_eq_map, List.map_cons, List.map_map]
    congr 1
    apply List.map_congr_left
    intro i _
    simp only [Function.comp_apply, Nat.succ_eq_add_one]
    have hadd : c + 1 + i = c + (i + 1) := by omega
    rw [hadd]

-- Helper: a window of `length` consecutive residues mod `length` reads
-- the list as a rotation, hence as a permutation of it.
theorem rr_window_perm (h : List Backend) (c : Nat) (hne : h ≠ []) :
    ((List.range h.length).map (fun i => h[(c + i) % h.length]?)).Perm
      (h.map some) := by
  have hlen : 0 < h.length := List.length_pos.mpr hne
  have hEq : (List.range h.length).map (fun i => h[(c + i) % h.length]?) =
      (h.rotate c).map some := by
    apply List.ext_getElem?
    intro i
    by_cases hi : i < h.length
    · rw [List.getElem?_map, List.getElem?_range hi, List.getElem?_map,
        List.getElem?_rotate hi]
      have hmod : (i + c) % h.length < h.length := Nat.mod_lt _ hlen
      rw [List.getElem?_eq_getElem hmod]
      simp [Nat.add_comm c i]
    · have h1 : (List.range h.length)[i]? = none :=
        List.getElem?_eq_none (by simpa using Nat.le_of_not_lt hi)
      have h2 : (h.rotate c)[i]? = none :=
        List.getElem?_eq_none (by simpa [List.length_rotate] using Nat.le_of_not_lt hi)
      rw [List.getElem?_map, h1, List.getElem?_map, h2]
      rfl
  rw [hEq]
  exact (h.rotate_perm c).map some

/-- C6: under the RoundRobin strategy with a fixed non-empty healthy
subset and no other consumer of the shared counter, `n` consecutive
calls to `select_backend` (where `n` is the healthy count) return every
healthy backend exactly once — the selections are a permutation of the
healthy subset. -/
theorem round_robin_cycle (lb : LoadBalancer) (bs : List Backend) (sid : Option String)
    (hs : lb.strategy = LoadBalanceStrategy.roundRobin)
    (hne : bs.filter (fun b => b.healthy) ≠ []) :
    ((select_many lb bs sid (bs.filter (fun b => b.healthy)).length).1).Perm
      ((bs.filter (fun b => b.healthy)).map some) := by
  obtain ⟨strat, c, m, rd⟩ := lb
  simp only at hs
  subst hs
  rw [select_many_rr bs sid m rd hne _ c]
  exact rr_window_perm _ c hne

/-- C6 witness: two healthy backends, counter 5: the two consecutive
selections are a permutation of the pair. -/
theorem round_robin_cycle_witness :
    ((select_many ⟨.roundRobin, 5, [], 0⟩ [bkA, bkB] none
        (([bkA, bkB].filter (fun b => b.healthy)).length)).1).Perm
      (([bkA, bkB].filter (fun b => b.healthy)).map some) :=
  round_robin_cycle ⟨.roundRobin, 5, [], 0⟩ [bkA, bkB] none rfl (by decide)
